import Mathlib

/-!
Shallow embedding of the product-dashboard query engine
(`ProductRecord`, `UserRequirement.validate`, `build_predicates`,
`apply_query`, `compute_metrics`, `export_to_json`) together with proofs
of the specification's claims about it.

Python `int` is modelled by `Int`, optional fields by `Option`,
raised `ValueError`s by an `Option ValidationError` result (validation)
and an `Except ValidationError` result (the query pipeline).
-/

/-- A product record: immutable value with four fields. -/
structure ProductRecord where
  product : String
  inventory : Int
  units_sold : Int
  revenue : Int
deriving DecidableEq, Repr

/-- The static dashboard summary snapshot. -/
structure DashboardSummary where
  total_revenue : Int
  total_products : Int
  stock_available : Int
  monthly_growth_percent : Rat
deriving DecidableEq, Repr

def SUMMARY : DashboardSummary :=
  { total_revenue := 480000, total_products := 18, stock_available := 1240,
    monthly_growth_percent := (124 : Rat) / 10 }

def PRODUCTS : List ProductRecord :=
  [ { product := "Cement (UltraTech)", inventory := 320, units_sold := 180, revenue := 90000 },
    { product := "TMT Steel", inventory := 210, units_sold := 140, revenue := 140000 },
    { product := "River Sand", inventory := 710, units_sold := 460, revenue := 250000 } ]

/-- Python `str.lower()` restricted to the character-wise case mapping. -/
def pyLower (s : String) : String :=
  String.mk (s.data.map Char.toLower)

def isPySpace (c : Char) : Bool :=
  c == ' ' || c == '\t' || c == '\n' || c == '\r' || c.toNat == 11 || c.toNat == 12

/-- Python `str.strip()` (ASCII whitespace): drop whitespace from both ends. -/
def pyStrip (s : String) : String :=
  String.mk (((s.data.dropWhile isPySpace).reverse.dropWhile isPySpace).reverse)

/-- Decides, as `isPrefixOfChars n h`, whether `n` is a prefix of `h`. -/
def isPrefixOfChars : List Char → List Char → Bool
  | [], _ => true
  | _ :: _, [] => false
  | a :: as, b :: bs => a == b && isPrefixOfChars as bs

/-- Decides, as `containsChars h n`, whether `n` occurs as a contiguous run in `h`:
Python's `n in h` on strings. -/
def containsChars : List Char → List Char → Bool
  | [], needle => needle.isEmpty
  | l@(_ :: t), needle => isPrefixOfChars needle l || containsChars t needle

/-- Python `needle in hay` on strings. -/
def strContains (hay needle : String) : Bool :=
  containsChars hay.data needle.data

/-- Validation failures raised by `UserRequirement.validate`
(Python `ValueError`s, distinguished by their message shape). -/
inductive ValidationError where
  | negativeBound (field : String) (value : Int)
  | invertedRange (fieldMin fieldMax : String) (minVal maxVal : Int)
  | unsupportedSortKey (key : String)
deriving DecidableEq, Repr

/-- A user requirement: all filter, sort and limit fields optional. -/
structure UserRequirement where
  min_inventory : Option Int := none
  max_inventory : Option Int := none
  min_units_sold : Option Int := none
  max_units_sold : Option Int := none
  min_revenue : Option Int := none
  max_revenue : Option Int := none
  product_contains : Option String := none
  sort_by : Option String := none
  sort_desc : Bool := true
  limit : Option Int := none
deriving DecidableEq, Repr

/-- First-error choice: the fail-fast sequencing of the validator. -/
def oFirst {α : Type} : Option α → Option α → Option α
  | some a, _ => some a
  | none, b => b

def _validate_non_negative (name : String) (value : Option Int) : Option ValidationError :=
  match value with
  | some v => if v < 0 then some (.negativeBound name v) else none
  | none => none

def _validate_range (nameMin nameMax : String) (minVal maxVal : Option Int) :
    Option ValidationError :=
  match minVal, maxVal with
  | some a, some b => if a > b then some (.invertedRange nameMin nameMax a b) else none
  | _, _ => none

/-- The four admissible sort keys. -/
def sortKeys : List String := ["inventory", "units_sold", "revenue", "product"]

/-- The sort-key check: Python `if self.sort_by and self.sort_by not in {...}`;
a `None` or empty `sort_by` is falsy and skips the check. -/
def sortKeyCheck (sb : Option String) : Option ValidationError :=
  match sb with
  | some s => if s ≠ "" && !(sortKeys.contains s) then some (.unsupportedSortKey s) else none
  | none => none

def boundChecks (req : UserRequirement) : Option ValidationError :=
  oFirst ( _validate_non_negative "min_inventory" req.min_inventory)
  (oFirst ( _validate_non_negative "max_inventory" req.max_inventory)
  (oFirst ( _validate_non_negative "min_units_sold" req.min_units_sold)
  (oFirst ( _validate_non_negative "max_units_sold" req.max_units_sold)
  (oFirst ( _validate_non_negative "min_revenue" req.min_revenue)
          ( _validate_non_negative "max_revenue" req.max_revenue)))))

def rangeChecks (req : UserRequirement) : Option ValidationError :=
  oFirst ( _validate_range "min_inventory" "max_inventory" req.min_inventory req.max_inventory)
  (oFirst ( _validate_range "min_units_sold" "max_units_sold" req.min_units_sold req.max_units_sold)
          ( _validate_range "min_revenue" "max_revenue" req.min_revenue req.max_revenue))

/-- Validation, `UserRequirement.validate`: the six non-negativity checks, then the three
range checks, then the sort-key check, failing fast on the first violation. -/
def UserRequirement.validate (req : UserRequirement) : Option ValidationError :=
  oFirst (boundChecks req) (oFirst (rangeChecks req) (sortKeyCheck req.sort_by))

/-- Predicate builder, `build_predicates`: one boolean test per active filter field, in source order.
The `product_contains` filter is active only when the field is truthy (non-empty);
its needle is the lower-cased then stripped filter text. -/
def build_predicates (req : UserRequirement) : List (ProductRecord → Bool) :=
  (match req.min_inventory with
   | some m => [fun r => decide (m ≤ r.inventory)]
   | none => []) ++
  (match req.max_inventory with
   | some m => [fun r => decide (r.inventory ≤ m)]
   | none => []) ++
  (match req.min_units_sold with
   | some m => [fun r => decide (m ≤ r.units_sold)]
   | none => []) ++
  (match req.max_units_sold with
   | some m => [fun r => decide (r.units_sold ≤ m)]
   | none => []) ++
  (match req.min_revenue with
   | some m => [fun r => decide (m ≤ r.revenue)]
   | none => []) ++
  (match req.max_revenue with
   | some m => [fun r => decide (r.revenue ≤ m)]
   | none => []) ++
  (match req.product_contains with
   | some s =>
      if s = "" then []
      else [fun r => strContains (pyLower r.product) (pyStrip (pyLower s))]
   | none => [])

/-- Stable sort by a key into a linear order; descending direction flips the
comparison but keeps ties in input order, as Python's `list.sort(reverse=True)`. -/
def sortByKey {κ : Type} [LinearOrder κ] (kf : ProductRecord → κ) (desc : Bool)
    (l : List ProductRecord) : List ProductRecord :=
  if desc then l.insertionSort (fun a b => kf b ≤ kf a)
  else l.insertionSort (fun a b => kf a ≤ kf b)

/-- Dispatch on the sort key, as the key-function dictionary in `apply_query`.
The catch-all branch is unreachable once validation has passed. -/
def applySortKey (s : String) (desc : Bool) (l : List ProductRecord) : List ProductRecord :=
  match s with
  | "inventory" => sortByKey (fun r => r.inventory) desc l
  | "units_sold" => sortByKey (fun r => r.units_sold) desc l
  | "revenue" => sortByKey (fun r => r.revenue) desc l
  | "product" => sortByKey (fun r => pyLower r.product) desc l
  | _ => l

/-- Python slice `l[:k]`, including negative-`k` semantics. -/
def pyTake {α : Type} (k : Int) (l : List α) : List α :=
  if 0 ≤ k then l.take k.toNat else l.take ((l.length : Int) + k).toNat

def filterStage (products : List ProductRecord) (req : UserRequirement) : List ProductRecord :=
  products.filter (fun p => (build_predicates req).all (fun pred => pred p))

/-- The sort step of `apply_query`: Python `if req.sort_by:` skips `None` and `""`. -/
def sortStage (req : UserRequirement) (l : List ProductRecord) : List ProductRecord :=
  match req.sort_by with
  | some s => if s = "" then l else applySortKey s req.sort_desc l
  | none => l

def limitStage (req : UserRequirement) (l : List ProductRecord) : List ProductRecord :=
  match req.limit with
  | some k => pyTake k l
  | none => l

/-- The pipeline `apply_query`: validate, then filter, then sort, then limit. -/
def apply_query (products : List ProductRecord) (req : UserRequirement) :
    Except ValidationError (List ProductRecord) :=
  match req.validate with
  | some e => .error e
  | none => .ok (limitStage req (sortStage req (filterStage products req)))

/-- The dictionary returned by `compute_metrics`. -/
structure Metrics where
  total_revenue_products : Int
  total_units_sold_products : Int
  total_inventory_products : Int
  top_product_by_revenue : Option ProductRecord
deriving DecidableEq, Repr

/-- Python `max(products, key=lambda p: p.revenue)` on a non-empty list:
keeps the first of the maximal elements. -/
def pyMaxByRevenue : List ProductRecord → Option ProductRecord
  | [] => none
  | p :: ps => some (ps.foldl (fun acc q => if acc.revenue < q.revenue then q else acc) p)

def compute_metrics (products : List ProductRecord) : Metrics :=
  { total_revenue_products := (products.map (fun p => p.revenue)).sum,
    total_units_sold_products := (products.map (fun p => p.units_sold)).sum,
    total_inventory_products := (products.map (fun p => p.inventory)).sum,
    top_product_by_revenue := pyMaxByRevenue products }


/-! ### JSON export (`json.dumps(payload, ensure_ascii=False, indent=2)`) and a parser -/

def lbrace : Char := Char.ofNat 123

def rbrace : Char := Char.ofNat 125

/-- Lower-case hex digit. -/
def hexDigitChar (n : Nat) : Char :=
  if n < 10 then Char.ofNat (48 + n) else Char.ofNat (87 + n)

/-- The JSON string escaping performed by `json.dumps(..., ensure_ascii=False)`. -/
def escapeChar (c : Char) : List Char :=
  if c = '"' then ['\\', '"']
  else if c = '\\' then ['\\', '\\']
  else if c = '\n' then ['\\', 'n']
  else if c = '\t' then ['\\', 't']
  else if c = '\r' then ['\\', 'r']
  else if c.toNat = 8 then ['\\', 'b']
  else if c.toNat = 12 then ['\\', 'f']
  else if c.toNat < 32 then
    ['\\', 'u', '0', '0', hexDigitChar (c.toNat / 16), hexDigitChar (c.toNat % 16)]
  else [c]

def escapeChars : List Char → List Char
  | [] => []
  | c :: cs => escapeChar c ++ escapeChars cs

/-- Decimal digit expansion of a natural number, most significant first. -/
def natDigits (n : Nat) : List Char :=
  if _h : n < 10 then [Char.ofNat (48 + n)]
  else natDigits (n / 10) ++ [Char.ofNat (48 + n % 10)]
decreasing_by exact Nat.div_lt_self (by omega) (by omega)

/-- Python `str(i)` for an integer. -/
def intChars (i : Int) : List Char :=
  if i < 0 then '-' :: natDigits (-i).toNat else natDigits i.toNat

/-- One object of the exported array, rendered at indent level 1 (indent=2). -/
def renderRecordChars (r : ProductRecord) : List Char :=
  [lbrace] ++ ("\n    \"product\": \"").data ++ escapeChars r.product.data ++
  ("\",\n    \"inventory\": ").data ++ intChars r.inventory ++
  (",\n    \"units_sold\": ").data ++ intChars r.units_sold ++
  (",\n    \"revenue\": ").data ++ intChars r.revenue ++
  ("\n  ").data ++ [rbrace]

def renderItems : List ProductRecord → List Char
  | [] => []
  | [r] => renderRecordChars r
  | r :: rs => renderRecordChars r ++ (",\n  ").data ++ renderItems rs

/-- The exporter `export_to_json`: the exact text of `json.dumps([asdict(r) for r in records],
ensure_ascii=False, indent=2)`. -/
def export_to_json (records : List ProductRecord) : String :=
  match records with
  | [] => "[]"
  | _ => String.mk (("[\n  ").data ++ renderItems records ++ ("\n]").data)

/-- Consume an expected literal run of characters, returning the remainder. -/
def expectChars : List Char → List Char → Option (List Char)
  | [], input => some input
  | _ :: _, [] => none
  | c :: cs, d :: ds => if c = d then expectChars cs ds else none

def hexVal (c : Char) : Option Nat :=
  if 48 ≤ c.toNat ∧ c.toNat ≤ 57 then some (c.toNat - 48)
  else if 97 ≤ c.toNat ∧ c.toNat ≤ 102 then some (c.toNat - 87)
  else none

/-- Parse a JSON string body (the opening quote already consumed) up to and
including the closing quote; returns the unescaped characters and the rest. -/
def parseStringBody : List Char → Option (List Char × List Char)
  | [] => none
  | c :: rest =>
    if c = '"' then some ([], rest)
    else if c = '\\' then
      match rest with
      | [] => none
      | e :: rest2 =>
        if e = '"' then (parseStringBody rest2).map (fun pr => ('"' :: pr.1, pr.2))
        else if e = '\\' then (parseStringBody rest2).map (fun pr => ('\\' :: pr.1, pr.2))
        else if e = 'n' then (parseStringBody rest2).map (fun pr => ('\n' :: pr.1, pr.2))
        else if e = 't' then (parseStringBody rest2).map (fun pr => ('\t' :: pr.1, pr.2))
        else if e = 'r' then (parseStringBody rest2).map (fun pr => ('\r' :: pr.1, pr.2))
        else if e = 'b' then (parseStringBody rest2).map (fun pr => (Char.ofNat 8 :: pr.1, pr.2))
        else if e = 'f' then (parseStringBody rest2).map (fun pr => (Char.ofNat 12 :: pr.1, pr.2))
        else if e = 'u' then
          match rest2 with
          | h1 :: h2 :: h3 :: h4 :: rest3 =>
            match hexVal h1, hexVal h2, hexVal h3, hexVal h4 with
            | some v1, some v2, some v3, some v4 =>
              (parseStringBody rest3).map
                (fun pr => (Char.ofNat (((v1 * 16 + v2) * 16 + v3) * 16 + v4) :: pr.1, pr.2))
            | _, _, _, _ => none
          | _ => none
        else none
    else (parseStringBody rest).map (fun pr => (c :: pr.1, pr.2))
termination_by l => l.length
decreasing_by all_goals (simp; try omega)

def isDigitChar (c : Char) : Bool := 48 ≤ c.toNat && c.toNat ≤ 57

def parseDigitsAux (acc : Nat) : List Char → Nat × List Char
  | [] => (acc, [])
  | c :: rest =>
    if isDigitChar c then parseDigitsAux (10 * acc + (c.toNat - 48)) rest else (acc, c :: rest)

/-- Parse a maximal non-empty run of decimal digits. -/
def parseDigits (l : List Char) : Option (Nat × List Char) :=
  match l with
  | [] => none
  | c :: _ => if isDigitChar c then some (parseDigitsAux 0 l) else none

/-- Parse a JSON integer (optional minus sign, then digits). -/
def parseIntChars (l : List Char) : Option (Int × List Char) :=
  match l with
  | [] => none
  | c :: rest =>
    if c = '-' then (parseDigits rest).map (fun pr => (-(pr.1 : Int), pr.2))
    else (parseDigits l).map (fun pr => ((pr.1 : Int), pr.2))

/-- Parse one exported object: exactly the four keys, in order. -/
def parseRecord (l : List Char) : Option ((String × Int × Int × Int) × List Char) :=
  (expectChars ([lbrace] ++ ("\n    \"product\": \"").data) l).bind (fun l1 =>
  (parseStringBody l1).bind (fun ps =>
  (expectChars ((",\n    \"inventory\": ").data) ps.2).bind (fun l2 =>
  (parseIntChars l2).bind (fun p1 =>
  (expectChars ((",\n    \"units_sold\": ").data) p1.2).bind (fun l3 =>
  (parseIntChars l3).bind (fun p2 =>
  (expectChars ((",\n    \"revenue\": ").data) p2.2).bind (fun l4 =>
  (parseIntChars l4).bind (fun p3 =>
  (expectChars (("\n  ").data ++ [rbrace]) p3.2).map (fun l5 =>
  ((String.mk ps.1, p1.1, p2.1, p3.1), l5))))))))))

/-- Parse the non-empty item list; the input must end exactly after the
closing bracket. -/
def parseItemsF : Nat → List Char → Option (List (String × Int × Int × Int))
  | 0, _ => none
  | fuel + 1, l =>
    (parseRecord l).bind (fun pr =>
      match pr.2 with
      | c :: rest =>
        if c = '\n' then if rest = [']'] then some [pr.1] else none
        else if c = ',' then
          (expectChars (("\n  ").data) rest).bind (fun l2 =>
            (parseItemsF fuel l2).map (fun items => pr.1 :: items))
        else none
      | [] => none)

/-- Parse the full exported text back into `(product, inventory, units_sold,
revenue)` tuples. -/
def parseExport (s : String) : Option (List (String × Int × Int × Int)) :=
  if s.data = ['[', ']'] then some []
  else (expectChars (("[\n  ").data) s.data).bind (fun l1 => parseItemsF s.data.length l1)

/-! ### Generic lemmas about the stable sort -/

theorem filter_orderedInsert_of_neg {α : Type} (le : α → α → Prop) [DecidableRel le]
    (p : α → Bool) (a : α) (hpa : p a = false) (l : List α) :
    (l.orderedInsert le a).filter p = l.filter p := by
  induction l with
  | nil => simp [List.orderedInsert, hpa]
  | cons b t ih =>
    by_cases h : le a b
    · simp [List.orderedInsert, h, List.filter_cons, hpa]
    · simp only [List.orderedInsert, if_neg h, List.filter_cons]
      cases hb : p b <;> simp [hb, ih]

theorem filter_orderedInsert_of_pos {α : Type} (le : α → α → Prop) [DecidableRel le]
    (p : α → Bool) (a : α) (hpa : p a = true) (hall : ∀ b, p b = true → le a b)
    (l : List α) :
    (l.orderedInsert le a).filter p = a :: l.filter p := by
  induction l with
  | nil => simp [List.orderedInsert, hpa]
  | cons b t ih =>
    by_cases h : le a b
    · simp [List.orderedInsert, h, List.filter_cons, hpa]
    · have hb : p b = false := by
        cases hpb : p b
        · rfl
        · exact absurd (hall b hpb) h
      simp [List.orderedInsert, h, List.filter_cons, hb, ih]

/-- A stable sort does not disturb the relative order of the elements singled
out by a predicate that relates all its members both ways. -/
theorem filter_insertionSort {α : Type} (le : α → α → Prop) [DecidableRel le]
    (p : α → Bool) (hp : ∀ a b, p a = true → p b = true → le a b) (l : List α) :
    (l.insertionSort le).filter p = l.filter p := by
  induction l with
  | nil => rfl
  | cons a t ih =>
    simp only [List.insertionSort]
    cases hpa : p a
    · rw [filter_orderedInsert_of_neg le p a hpa, ih, List.filter_cons_of_neg (by simp [hpa])]
    · rw [filter_orderedInsert_of_pos le p a hpa (fun b hb => hp a b hpa hb), ih,
        List.filter_cons_of_pos hpa]

theorem sortByKey_perm {κ : Type} [LinearOrder κ] (kf : ProductRecord → κ) (desc : Bool)
    (l : List ProductRecord) : (sortByKey kf desc l).Perm l := by
  unfold sortByKey
  split
  · exact List.perm_insertionSort _ _
  · exact List.perm_insertionSort _ _

theorem sortByKey_sorted_desc {κ : Type} [LinearOrder κ] (kf : ProductRecord → κ)
    (l : List ProductRecord) :
    List.Sorted (fun a b => kf b ≤ kf a) (sortByKey kf true l) := by
  haveI : IsTotal ProductRecord (fun a b => kf b ≤ kf a) := ⟨fun a b => le_total (kf b) (kf a)⟩
  haveI : IsTrans ProductRecord (fun a b => kf b ≤ kf a) :=
    ⟨fun _ _ _ h1 h2 => le_trans h2 h1⟩
  simpa [sortByKey] using List.sorted_insertionSort (fun a b => kf b ≤ kf a) l

theorem sortByKey_sorted_asc {κ : Type} [LinearOrder κ] (kf : ProductRecord → κ)
    (l : List ProductRecord) :
    List.Sorted (fun a b => kf a ≤ kf b) (sortByKey kf false l) := by
  haveI : IsTotal ProductRecord (fun a b => kf a ≤ kf b) := ⟨fun a b => le_total (kf a) (kf b)⟩
  haveI : IsTrans ProductRecord (fun a b => kf a ≤ kf b) :=
    ⟨fun _ _ _ h1 h2 => le_trans h1 h2⟩
  simpa [sortByKey] using List.sorted_insertionSort (fun a b => kf a ≤ kf b) l

theorem sortByKey_stable {κ : Type} [LinearOrder κ] (kf : ProductRecord → κ) (desc : Bool)
    (v : κ) (l : List ProductRecord) :
    (sortByKey kf desc l).filter (fun b => decide (kf b = v)) =
      l.filter (fun b => decide (kf b = v)) := by
  unfold sortByKey
  split
  · refine filter_insertionSort _ _ (fun a b ha hb => ?_) l
    simp only [decide_eq_true_eq] at ha hb
    rw [ha, hb]
  · refine filter_insertionSort _ _ (fun a b ha hb => ?_) l
    simp only [decide_eq_true_eq] at ha hb
    rw [ha, hb]

/-! ### The pipeline on a passing requirement -/

theorem apply_query_ok (ps : List ProductRecord) (req : UserRequirement)
    (h : req.validate = none) :
    apply_query ps req = .ok (limitStage req (sortStage req (filterStage ps req))) := by
  unfold apply_query
  rw [h]

/-- C7: on the sample dataset, the requirement `min_revenue=100000,
min_inventory=200, sort_by="revenue", sort_desc=true` returns exactly
`[River Sand, TMT Steel]`, and the metrics over that result are
`total_revenue=390000`, `total_units=600`, `total_inventory=920` with
River Sand (record C) on top by revenue. -/
theorem end_to_end_scenario :
    apply_query PRODUCTS
      { min_revenue := some 100000, min_inventory := some 200,
        sort_by := some "revenue", sort_desc := true } =
      Except.ok
        [{ product := "River Sand", inventory := 710, units_sold := 460, revenue := 250000 },
         { product := "TMT Steel", inventory := 210, units_sold := 140, revenue := 140000 }] ∧
    compute_metrics
        [{ product := "River Sand", inventory := 710, units_sold := 460, revenue := 250000 },
         { product := "TMT Steel", inventory := 210, units_sold := 140, revenue := 140000 }] =
      { total_revenue_products := 390000, total_units_sold_products := 600,
        total_inventory_products := 920,
        top_product_by_revenue :=
          some { product := "River Sand", inventory := 710, units_sold := 460,
                 revenue := 250000 } } :=
  ⟨rfl, rfl⟩

/-- C5: with limit set to a non-negative integer, `apply_query` keeps exactly the
first `limit` elements of the filtered-and-sorted sequence; `limit = 0` yields an
empty result, `limit` at least the sequence length is a no-op, and an absent
limit performs no truncation. -/
theorem limit_semantics (ps : List ProductRecord) (req : UserRequirement)
    (hv : req.validate = none) :
    (req.limit = none →
      apply_query ps req = .ok (sortStage req (filterStage ps req))) ∧
    (∀ k : Int, req.limit = some k → 0 ≤ k →
      apply_query ps req = .ok ((sortStage req (filterStage ps req)).take k.toNat) ∧
      (k = 0 → apply_query ps req = .ok []) ∧
      (((sortStage req (filterStage ps req)).length : Int) ≤ k →
        apply_query ps req = .ok (sortStage req (filterStage ps req)))) := by
  have hq := apply_query_ok ps req hv
  constructor
  · intro hl
    rw [hq]
    unfold limitStage
    rw [hl]
  · intro k hl hk
    have h1 : apply_query ps req = .ok ((sortStage req (filterStage ps req)).take k.toNat) := by
      rw [hq]
      simp only [limitStage, hl, pyTake, if_pos hk]
    refine ⟨h1, ?_, ?_⟩
    · intro h0
      subst h0
      simpa using h1
    · intro hlen
      rw [h1, List.take_of_length_le (by omega)]

theorem limit_semantics_witness :
    apply_query PRODUCTS { limit := some 2 } =
      .ok ((sortStage { limit := some 2 } (filterStage PRODUCTS { limit := some 2 })).take
        ((2 : Int).toNat)) :=
  ((limit_semantics PRODUCTS { limit := some 2 } rfl).2 2 rfl (by decide)).1

/-- C10: validation never examines `limit`; a negative limit `-k` follows Python
slice semantics, keeping the first `n - k` elements of the filtered-and-sorted
sequence (empty once `k` reaches its length), with no error raised. -/
theorem negative_limit_slice (ps : List ProductRecord) (req : UserRequirement) (k : Int) :
    ({ req with limit := some k } : UserRequirement).validate = req.validate ∧
    (req.validate = none → req.limit = some k → k < 0 →
      apply_query ps req =
        .ok ((sortStage req (filterStage ps req)).take
          ((sortStage req (filterStage ps req)).length - (-k).toNat)) ∧
      ((sortStage req (filterStage ps req)).length ≤ (-k).toNat →
        apply_query ps req = .ok [])) := by
  constructor
  · rfl
  · intro hv hl hk
    have hq := apply_query_ok ps req hv
    have h1 : apply_query ps req =
        .ok ((sortStage req (filterStage ps req)).take
          ((sortStage req (filterStage ps req)).length - (-k).toNat)) := by
      rw [hq]
      simp only [limitStage, hl, pyTake, if_neg (show ¬ (0 : Int) ≤ k by omega)]
      have harith : ∀ n : Nat, ((n : Int) + k).toNat = n - (-k).toNat := fun n => by omega
      rw [harith]
    refine ⟨h1, fun hlen => ?_⟩
    rw [h1]
    have : (sortStage req (filterStage ps req)).length - (-k).toNat = 0 := by omega
    rw [this, List.take_zero]

theorem negative_limit_slice_witness :
    ({ min_inventory := some 5, limit := some (-2) } : UserRequirement).validate =
      ({ min_inventory := some 5 } : UserRequirement).validate ∧
    apply_query PRODUCTS { limit := some (-2) } =
      .ok ((sortStage { limit := some (-2) } (filterStage PRODUCTS { limit := some (-2) })).take
        ((sortStage { limit := some (-2) }
          (filterStage PRODUCTS { limit := some (-2) })).length - ((-(-2 : Int)).toNat))) :=
  ⟨(negative_limit_slice PRODUCTS { min_inventory := some 5 } (-2)).1,
   ((negative_limit_slice PRODUCTS { limit := some (-2) } (-2)).2 rfl rfl (by decide)).1⟩

/-! ### Metrics -/

/-- The running maximum kept by `max(..., key=revenue)` is the first element of
maximal revenue: everything strictly before it is strictly smaller, everything
after it is no larger. -/
theorem foldl_max_decomp (ps : List ProductRecord) :
    ∀ p : ProductRecord,
      ∃ l₁ l₂,
        p :: ps =
          l₁ ++ (ps.foldl (fun acc q => if acc.revenue < q.revenue then q else acc) p) :: l₂ ∧
        (∀ q ∈ l₁,
          q.revenue <
            (ps.foldl (fun acc q => if acc.revenue < q.revenue then q else acc) p).revenue) ∧
        (∀ q ∈ l₂,
          q.revenue ≤
            (ps.foldl (fun acc q => if acc.revenue < q.revenue then q else acc) p).revenue) := by
  induction ps with
  | nil =>
    intro p
    exact ⟨[], [], by simp⟩
  | cons q t ih =>
    intro p
    simp only [List.foldl_cons]
    by_cases h : p.revenue < q.revenue
    · rw [if_pos h]
      obtain ⟨l₁, l₂, heq, h1, h2⟩ := ih q
      refine ⟨p :: l₁, l₂, by rw [List.cons_append, ← heq], ?_, h2⟩
      have hq : q.revenue ≤
          (t.foldl (fun acc q => if acc.revenue < q.revenue then q else acc) q).revenue := by
        have hmem : q ∈ q :: t := List.mem_cons_self q t
        rw [heq] at hmem
        rcases List.mem_append.mp hmem with hm | hm
        · exact le_of_lt (h1 q hm)
        · rcases List.mem_cons.mp hm with hm1 | hm1
          · exact le_of_eq (congrArg (fun r => r.revenue) hm1)
          · exact h2 q hm1
      intro x hx
      rcases List.mem_cons.mp hx with rfl | hm
      · exact lt_of_lt_of_le h hq
      · exact h1 x hm
    · rw [if_neg h]
      obtain ⟨l₁, l₂, heq, h1, h2⟩ := ih p
      cases l₁ with
      | nil =>
        simp only [List.nil_append] at heq
        have hp : p = t.foldl (fun acc q => if acc.revenue < q.revenue then q else acc) p :=
          (List.cons_eq_cons.mp heq).1
        have ht : t = l₂ := (List.cons_eq_cons.mp heq).2
        refine ⟨[], q :: t, ?_, by simp, ?_⟩
        · simp only [List.nil_append]
          rw [← hp]
        · intro x hx
          rcases List.mem_cons.mp hx with rfl | hm
          · rw [← hp]; omega
          · exact ht ▸ h2 x (ht ▸ hm)
      | cons a l₁' =>
        rw [List.cons_append] at heq
        have ha : a = p := ((List.cons_eq_cons.mp heq).1).symm
        have ht : t =
            l₁' ++ (t.foldl (fun acc q => if acc.revenue < q.revenue then q else acc) p) :: l₂ :=
          (List.cons_eq_cons.mp heq).2
        have hpm : p.revenue <
            (t.foldl (fun acc q => if acc.revenue < q.revenue then q else acc) p).revenue := by
          have := h1 a (List.mem_cons_self a l₁')
          rw [ha] at this
          exact this
        refine ⟨p :: q :: l₁', l₂, ?_, ?_, h2⟩
        · conv_lhs => rw [ht]
          simp
        · intro x hx
          rcases List.mem_cons.mp hx with rfl | hm
          · exact hpm
          rcases List.mem_cons.mp hm with rfl | hm1
          · omega
          · exact h1 x (ha ▸ List.mem_cons_of_mem a hm1)

/-- C6: `compute_metrics` returns the three field sums (0 on empty input) and
the record of maximum revenue, choosing the first such record in input order,
absent exactly when the input is empty. -/
theorem compute_metrics_spec (l : List ProductRecord) :
    (compute_metrics l).total_revenue_products = (l.map (fun p => p.revenue)).sum ∧
    (compute_metrics l).total_units_sold_products = (l.map (fun p => p.units_sold)).sum ∧
    (compute_metrics l).total_inventory_products = (l.map (fun p => p.inventory)).sum ∧
    (compute_metrics ([] : List ProductRecord)).top_product_by_revenue = none ∧
    (l ≠ [] → ∃ r, (compute_metrics l).top_product_by_revenue = some r) ∧
    (∀ r, (compute_metrics l).top_product_by_revenue = some r →
      ∃ l₁ l₂, l = l₁ ++ r :: l₂ ∧ (∀ q ∈ l₁, q.revenue < r.revenue) ∧
        (∀ q ∈ l₂, q.revenue ≤ r.revenue)) := by
  refine ⟨rfl, rfl, rfl, rfl, ?_, ?_⟩
  · intro hne
    cases l with
    | nil => exact absurd rfl hne
    | cons p ps => exact ⟨_, rfl⟩
  · intro r hr
    cases l with
    | nil => exact absurd hr (by simp [compute_metrics, pyMaxByRevenue])
    | cons p ps =>
      have hr' : ps.foldl (fun acc q => if acc.revenue < q.revenue then q else acc) p = r := by
        have : (compute_metrics (p :: ps)).top_product_by_revenue =
            some (ps.foldl (fun acc q => if acc.revenue < q.revenue then q else acc) p) := rfl
        rw [this] at hr
        exact Option.some.inj hr
      obtain ⟨l₁, l₂, heq, h1, h2⟩ := foldl_max_decomp ps p
      rw [hr'] at heq h1 h2
      exact ⟨l₁, l₂, heq, h1, h2⟩

theorem compute_metrics_spec_witness :
    PRODUCTS ≠ [] ∧ ∃ r, (compute_metrics PRODUCTS).top_product_by_revenue = some r :=
  ⟨by decide, (compute_metrics_spec PRODUCTS).2.2.2.2.1 (by decide)⟩

/-! ### Validation -/

theorem oFirst_eq_none {α : Type} (a b : Option α) :
    oFirst a b = none ↔ a = none ∧ b = none := by
  cases a <;> simp [oFirst]

theorem oFirst_eq_some {α : Type} (a b : Option α) (e : α) :
    oFirst a b = some e ↔ a = some e ∨ (a = none ∧ b = some e) := by
  cases a <;> simp [oFirst]

theorem vnn_none (n : String) (o : Option Int) :
    _validate_non_negative n o = none ↔ ¬ ∃ v, o = some v ∧ v < 0 := by
  cases o with
  | none => simp [ _validate_non_negative]
  | some v => by_cases h : v < 0 <;> simp [ _validate_non_negative, h]

theorem vnn_some (n : String) (o : Option Int) (e : ValidationError) :
    _validate_non_negative n o = some e ↔
      ∃ v, o = some v ∧ v < 0 ∧ e = .negativeBound n v := by
  cases o with
  | none => simp [ _validate_non_negative]
  | some v =>
    simp only [ _validate_non_negative]
    by_cases h : v < 0
    · rw [if_pos h]
      constructor
      · intro he
        exact ⟨v, rfl, h, (Option.some.inj he).symm⟩
      · rintro ⟨w, hw, -, rfl⟩
        cases Option.some.inj hw
        rfl
    · rw [if_neg h]
      constructor
      · intro he
        exact absurd he (by simp)
      · rintro ⟨w, hw, hw0, -⟩
        cases Option.some.inj hw
        exact absurd hw0 h

theorem vr_none (nm nM : String) (a b : Option Int) :
    _validate_range nm nM a b = none ↔ ¬ ∃ x y, a = some x ∧ b = some y ∧ y < x := by
  cases a with
  | none => simp [ _validate_range]
  | some x =>
    cases b with
    | none => simp [ _validate_range]
    | some y =>
      simp only [ _validate_range]
      by_cases h : x > y
      · rw [if_pos h]
        constructor
        · intro he
          exact absurd he (by simp)
        · intro hn
          exact absurd ⟨x, y, rfl, rfl, h⟩ hn
      · rw [if_neg h]
        constructor
        · rintro - ⟨u, w, hu, hw, hlt⟩
          cases Option.some.inj hu
          cases Option.some.inj hw
          exact absurd hlt h
        · intro _
          rfl

theorem vr_some (nm nM : String) (a b : Option Int) (e : ValidationError) :
    _validate_range nm nM a b = some e ↔
      ∃ x y, a = some x ∧ b = some y ∧ y < x ∧ e = .invertedRange nm nM x y := by
  cases a with
  | none => simp [ _validate_range]
  | some x =>
    cases b with
    | none => simp [ _validate_range]
    | some y =>
      simp only [ _validate_range]
      by_cases h : x > y
      · rw [if_pos h]
        constructor
        · intro he
          exact ⟨x, y, rfl, rfl, h, (Option.some.inj he).symm⟩
        · rintro ⟨u, w, hu, hw, -, rfl⟩
          cases Option.some.inj hu
          cases Option.some.inj hw
          rfl
      · rw [if_neg h]
        constructor
        · intro he
          exact absurd he (by simp)
        · rintro ⟨u, w, hu, hw, hlt, -⟩
          cases Option.some.inj hu
          cases Option.some.inj hw
          exact absurd hlt h

/-- Some present bound is negative (the claim's NegativeBound condition). -/
def NegBoundViolation (req : UserRequirement) : Prop :=
  (∃ v, req.min_inventory = some v ∧ v < 0) ∨ (∃ v, req.max_inventory = some v ∧ v < 0) ∨
  (∃ v, req.min_units_sold = some v ∧ v < 0) ∨ (∃ v, req.max_units_sold = some v ∧ v < 0) ∨
  (∃ v, req.min_revenue = some v ∧ v < 0) ∨ (∃ v, req.max_revenue = some v ∧ v < 0)

/-- Some pair has both bounds present with min > max (the claim's InvertedRange
condition). -/
def InvertedRangeViolation (req : UserRequirement) : Prop :=
  (∃ a b, req.min_inventory = some a ∧ req.max_inventory = some b ∧ b < a) ∨
  (∃ a b, req.min_units_sold = some a ∧ req.max_units_sold = some b ∧ b < a) ∨
  (∃ a b, req.min_revenue = some a ∧ req.max_revenue = some b ∧ b < a)

theorem boundChecks_none (req : UserRequirement) :
    boundChecks req = none ↔ ¬ NegBoundViolation req := by
  simp only [boundChecks, oFirst_eq_none, vnn_none, NegBoundViolation, not_or]

theorem boundChecks_shape (req : UserRequirement) (e : ValidationError)
    (h : boundChecks req = some e) : ∃ f v, e = ValidationError.negativeBound f v := by
  simp only [boundChecks, oFirst_eq_some] at h
  rcases h with h | ⟨-, h | ⟨-, h | ⟨-, h | ⟨-, h | ⟨-, h⟩⟩⟩⟩⟩ <;>
  · obtain ⟨v, -, -, he⟩ := (vnn_some _ _ _).mp h
    exact ⟨_, v, he⟩

theorem rangeChecks_none (req : UserRequirement) :
    rangeChecks req = none ↔ ¬ InvertedRangeViolation req := by
  simp only [rangeChecks, oFirst_eq_none, vr_none, InvertedRangeViolation, not_or]

theorem rangeChecks_shape (req : UserRequirement) (e : ValidationError)
    (h : rangeChecks req = some e) : ∃ f g a b, e = ValidationError.invertedRange f g a b := by
  simp only [rangeChecks, oFirst_eq_some] at h
  rcases h with h | ⟨-, h | ⟨-, h⟩⟩ <;>
  · obtain ⟨x, y, -, -, -, he⟩ := (vr_some _ _ _ _ _).mp h
    exact ⟨_, _, x, y, he⟩

theorem sortKeyCheck_shape (sb : Option String) (e : ValidationError)
    (h : sortKeyCheck sb = some e) : ∃ s, e = ValidationError.unsupportedSortKey s := by
  cases sb with
  | none => simp [sortKeyCheck] at h
  | some s =>
    simp only [sortKeyCheck] at h
    split at h
    · exact ⟨s, (Option.some.inj h).symm⟩
    · exact absurd h (by simp)

/-- C3: `validate` reports NegativeBound exactly when some present bound is
negative; it reports InvertedRange exactly when no bound is negative (the six
non-negativity checks run first, min before max within each field) and some
pair has min > max; `min_inventory=-1` fails with NegativeBound and
`min_revenue=500, max_revenue=100` fails with InvertedRange. -/
theorem validate_spec (req : UserRequirement) :
    ((∃ f v, req.validate = some (ValidationError.negativeBound f v)) ↔
      NegBoundViolation req) ∧
    ((∃ f g a b, req.validate = some (ValidationError.invertedRange f g a b)) ↔
      ¬ NegBoundViolation req ∧ InvertedRangeViolation req) ∧
    (∀ v : Int, req.min_inventory = some v → v < 0 →
      req.validate = some (ValidationError.negativeBound "min_inventory" v)) ∧
    (({ min_inventory := some (-1) } : UserRequirement).validate =
      some (ValidationError.negativeBound "min_inventory" (-1))) ∧
    (({ min_revenue := some 500, max_revenue := some 100 } : UserRequirement).validate =
      some (ValidationError.invertedRange "min_revenue" "max_revenue" 500 100)) := by
  refine ⟨⟨?_, ?_⟩, ⟨?_, ?_⟩, ?_, rfl, rfl⟩
  · rintro ⟨f, v, h⟩
    rcases (oFirst_eq_some _ _ _).mp h with hbc | ⟨hbc, h2⟩
    · by_contra hn
      rw [(boundChecks_none req).mpr hn] at hbc
      exact absurd hbc (by simp)
    · rcases (oFirst_eq_some _ _ _).mp h2 with hrc | ⟨-, hsk⟩
      · obtain ⟨_, _, _, _, he⟩ := rangeChecks_shape req _ hrc
        exact absurd he (by simp)
      · obtain ⟨_, he⟩ := sortKeyCheck_shape _ _ hsk
        exact absurd he (by simp)
  · intro hneg
    cases hbc : boundChecks req with
    | none => exact absurd ((boundChecks_none req).mp hbc) (not_not_intro hneg)
    | some e =>
      obtain ⟨f, v, rfl⟩ := boundChecks_shape req e hbc
      exact ⟨f, v, by simp [UserRequirement.validate, oFirst_eq_some, hbc]⟩
  · rintro ⟨f, g, a, b, h⟩
    rcases (oFirst_eq_some _ _ _).mp h with hbc | ⟨hbc, h2⟩
    · obtain ⟨_, _, he⟩ := boundChecks_shape req _ hbc
      exact absurd he (by simp)
    · rcases (oFirst_eq_some _ _ _).mp h2 with hrc | ⟨hrc, hsk⟩
      · refine ⟨(boundChecks_none req).mp hbc, ?_⟩
        by_contra hn
        rw [(rangeChecks_none req).mpr hn] at hrc
        exact absurd hrc (by simp)
      · obtain ⟨_, he⟩ := sortKeyCheck_shape _ _ hsk
        exact absurd he (by simp)
  · rintro ⟨hnneg, hinv⟩
    have hbc : boundChecks req = none := (boundChecks_none req).mpr hnneg
    cases hrc : rangeChecks req with
    | none => exact absurd ((rangeChecks_none req).mp hrc) (not_not_intro hinv)
    | some e =>
      obtain ⟨f, g, a, b, rfl⟩ := rangeChecks_shape req e hrc
      exact ⟨f, g, a, b, by simp [UserRequirement.validate, oFirst_eq_some, hbc, hrc]⟩
  · intro v hmi hv
    have h1 : _validate_non_negative "min_inventory" req.min_inventory =
        some (ValidationError.negativeBound "min_inventory" v) := by
      rw [hmi]
      simp [ _validate_non_negative, hv]
    simp [UserRequirement.validate, boundChecks, oFirst, h1]

theorem validate_spec_witness :
    (∃ f v, ({ max_units_sold := some (-3) } : UserRequirement).validate =
      some (ValidationError.negativeBound f v)) ∧
    NegBoundViolation { max_units_sold := some (-3) } :=
  have hneg : NegBoundViolation { max_units_sold := some (-3) } :=
    Or.inr (Or.inr (Or.inr (Or.inl ⟨-3, rfl, by decide⟩)))
  ⟨(validate_spec _).1.mpr hneg, hneg⟩

/-- C4 counterexample: `sort_by = ""` is present and not a member of the four
admissible sort keys, yet `validate` raises nothing — Python's truthiness test
`if self.sort_by` skips the empty string. -/
theorem sort_key_claim_counterexample :
    ({ sort_by := some "" } : UserRequirement).sort_by = some "" ∧
    "" ∉ sortKeys ∧
    ({ sort_by := some "" } : UserRequirement).validate = none :=
  ⟨rfl, by decide, rfl⟩

/-- C4 (amended): when the bound and range checks pass, a present non-empty
`sort_by` outside `{inventory, units_sold, revenue, product}` makes `validate`
fail with UnsupportedSortKey; a present member of that set never yields a
sort-key error, and neither does the empty string. -/
theorem sort_key_validation_amended (req : UserRequirement) (s : String)
    (hsb : req.sort_by = some s) :
    (boundChecks req = none → rangeChecks req = none → s ≠ "" → s ∉ sortKeys →
      req.validate = some (ValidationError.unsupportedSortKey s)) ∧
    (s ∈ sortKeys → ∀ t, req.validate ≠ some (ValidationError.unsupportedSortKey t)) ∧
    (s = "" → ∀ t, req.validate ≠ some (ValidationError.unsupportedSortKey t)) := by
  refine ⟨?_, ?_, ?_⟩
  · intro hb hr hne hmem
    have hsk : sortKeyCheck req.sort_by = some (ValidationError.unsupportedSortKey s) := by
      rw [hsb]
      simp [sortKeyCheck, hne]
      simpa using hmem
    simp [UserRequirement.validate, hb, hr, oFirst, hsk]
  · intro hmem t h
    have hsk : sortKeyCheck req.sort_by = none := by
      rw [hsb]
      simp [sortKeyCheck]
      intro
      simpa using hmem
    rcases (oFirst_eq_some _ _ _).mp h with hbc | ⟨-, h2⟩
    · obtain ⟨_, _, he⟩ := boundChecks_shape req _ hbc
      exact absurd he (by simp)
    · rcases (oFirst_eq_some _ _ _).mp h2 with hrc | ⟨-, hsk2⟩
      · obtain ⟨_, _, _, _, he⟩ := rangeChecks_shape req _ hrc
        exact absurd he (by simp)
      · rw [hsk] at hsk2
        exact absurd hsk2 (by simp)
  · rintro rfl t h
    have hsk : sortKeyCheck req.sort_by = none := by
      rw [hsb]
      simp [sortKeyCheck]
    rcases (oFirst_eq_some _ _ _).mp h with hbc | ⟨-, h2⟩
    · obtain ⟨_, _, he⟩ := boundChecks_shape req _ hbc
      exact absurd he (by simp)
    · rcases (oFirst_eq_some _ _ _).mp h2 with hrc | ⟨-, hsk2⟩
      · obtain ⟨_, _, _, _, he⟩ := rangeChecks_shape req _ hrc
        exact absurd he (by simp)
      · rw [hsk] at hsk2
        exact absurd hsk2 (by simp)

theorem sort_key_validation_amended_witness :
    ({ sort_by := some "price" } : UserRequirement).validate =
      some (ValidationError.unsupportedSortKey "price") :=
  (sort_key_validation_amended { sort_by := some "price" } "price" rfl).1 rfl rfl
    (by decide) (by decide)

/-! ### Filtering -/

theorem containsChars_nil (h : List Char) : containsChars h [] = true := by
  cases h <;> simp [containsChars, isPrefixOfChars]

/-- The claim's per-record filter condition: every active bound holds
(inclusively) and, when set, the lower-cased stripped needle occurs in the
lower-cased product name. -/
def satisfiesFilters (req : UserRequirement) (r : ProductRecord) : Prop :=
  (∀ m, req.min_inventory = some m → m ≤ r.inventory) ∧
  (∀ m, req.max_inventory = some m → r.inventory ≤ m) ∧
  (∀ m, req.min_units_sold = some m → m ≤ r.units_sold) ∧
  (∀ m, req.max_units_sold = some m → r.units_sold ≤ m) ∧
  (∀ m, req.min_revenue = some m → m ≤ r.revenue) ∧
  (∀ m, req.max_revenue = some m → r.revenue ≤ m) ∧
  (∀ s, req.product_contains = some s →
    strContains (pyLower r.product) (pyStrip (pyLower s)) = true)

/-- The conjunction of the built predicates is exactly `satisfiesFilters`;
in particular an empty (falsy) `product_contains`, which builds no predicate,
is equivalent to the always-true empty-needle containment test. -/
theorem all_minPred (o : Option Int) (g : ProductRecord → Int) (r : ProductRecord) :
    ((match o with
      | some m => [fun q => decide (m ≤ g q)]
      | none => []).all (fun pred => pred r) = true) ↔ ∀ m, o = some m → m ≤ g r := by
  cases o <;> simp

theorem all_maxPred (o : Option Int) (g : ProductRecord → Int) (r : ProductRecord) :
    ((match o with
      | some m => [fun q => decide (g q ≤ m)]
      | none => []).all (fun pred => pred r) = true) ↔ ∀ m, o = some m → g r ≤ m := by
  cases o <;> simp

theorem all_containsPred (pc : Option String) (r : ProductRecord) :
    (((match pc with
      | some s =>
        if s = "" then []
        else [fun q => strContains (pyLower q.product) (pyStrip (pyLower s))]
      | none => []) : List (ProductRecord → Bool)).all (fun pred => pred r) = true) ↔
      ∀ s, pc = some s → strContains (pyLower r.product) (pyStrip (pyLower s)) = true := by
  cases pc with
  | none => simp
  | some s =>
    by_cases hs : s = ""
    · subst hs
      have hnil : pyStrip (pyLower "") = "" := rfl
      have hempty : ∀ h : String, strContains h "" = true := fun h => containsChars_nil h.data
      simp [hnil, hempty]
    · simp only [if_neg hs, List.all_cons, List.all_nil, Bool.and_true,
        Option.some.injEq]
      constructor
      · intro h s' hs'
        subst hs'
        exact h
      · intro h
        exact h s rfl

theorem build_predicates_all_iff (req : UserRequirement) (r : ProductRecord) :
    ((build_predicates req).all (fun pred => pred r) = true) ↔ satisfiesFilters req r := by
  obtain ⟨mi, Mi, mu, Mu, mr, Mr, pc, sb, sd, lim⟩ := req
  simp only [build_predicates, satisfiesFilters, List.all_append, Bool.and_eq_true,
    all_minPred mi (fun q => q.inventory) r, all_maxPred Mi (fun q => q.inventory) r,
    all_minPred mu (fun q => q.units_sold) r, all_maxPred Mu (fun q => q.units_sold) r,
    all_minPred mr (fun q => q.revenue) r, all_maxPred Mr (fun q => q.revenue) r,
    all_containsPred pc r]
  tauto

theorem applySortKey_perm (s : String) (desc : Bool) (l : List ProductRecord) :
    (applySortKey s desc l).Perm l := by
  unfold applySortKey
  split
  · exact sortByKey_perm _ _ _
  · exact sortByKey_perm _ _ _
  · exact sortByKey_perm _ _ _
  · exact sortByKey_perm _ _ _
  · exact List.Perm.refl _

theorem sortStage_perm (req : UserRequirement) (l : List ProductRecord) :
    (sortStage req l).Perm l := by
  unfold sortStage
  split
  · split
    · exact List.Perm.refl _
    · exact applySortKey_perm _ _ _
  · exact List.Perm.refl _

/-- C1 counterexample: the all-absent requirement with `limit = 0` passes
validation and the record satisfies every active filter (there are none), yet
the record does not appear in the output of `apply_query`. -/
theorem filter_claim_counterexample :
    ({ limit := some 0 } : UserRequirement).validate = none ∧
    satisfiesFilters { limit := some 0 }
      { product := "A", inventory := 1, units_sold := 1, revenue := 1 } ∧
    apply_query [{ product := "A", inventory := 1, units_sold := 1, revenue := 1 }]
      { limit := some 0 } = .ok [] :=
  ⟨rfl,
   ⟨fun _ h => Option.noConfusion h, fun _ h => Option.noConfusion h,
    fun _ h => Option.noConfusion h, fun _ h => Option.noConfusion h,
    fun _ h => Option.noConfusion h, fun _ h => Option.noConfusion h,
    fun _ h => Option.noConfusion h⟩,
   rfl⟩

/-- C1 (amended): for a validated requirement with no limit set, a record is in
the output of `apply_query` iff it is in the input and satisfies every active
filter (both bounds inclusive, case-insensitive trimmed substring); with no
active filters every record is kept. -/
theorem filter_membership (ps : List ProductRecord) (req : UserRequirement)
    (r : ProductRecord) (hv : req.validate = none) (hl : req.limit = none)
    (out : List ProductRecord) (hq : apply_query ps req = .ok out) :
    r ∈ out ↔ r ∈ ps ∧ satisfiesFilters req r := by
  have h2 := apply_query_ok ps req hv
  rw [hq] at h2
  have hout : out = sortStage req (filterStage ps req) := by
    rw [Except.ok.inj h2]
    unfold limitStage
    rw [hl]
  rw [hout, (sortStage_perm req _).mem_iff]
  unfold filterStage
  simp only [List.mem_filter]
  exact and_congr Iff.rfl (build_predicates_all_iff req r)

theorem filter_membership_witness :
    (({ product := "River Sand", inventory := 710, units_sold := 460, revenue := 250000 } : ProductRecord) ∈
      [({ product := "TMT Steel", inventory := 210, units_sold := 140, revenue := 140000 } : ProductRecord),
       { product := "River Sand", inventory := 710, units_sold := 460, revenue := 250000 }]) ↔
    (({ product := "River Sand", inventory := 710, units_sold := 460, revenue := 250000 } : ProductRecord) ∈ PRODUCTS ∧
      satisfiesFilters { min_revenue := some 100000 }
        { product := "River Sand", inventory := 710, units_sold := 460, revenue := 250000 }) :=
  filter_membership PRODUCTS { min_revenue := some 100000 }
    { product := "River Sand", inventory := 710, units_sold := 460, revenue := 250000 }
    rfl rfl
    [{ product := "TMT Steel", inventory := 210, units_sold := 140, revenue := 140000 },
     { product := "River Sand", inventory := 710, units_sold := 460, revenue := 250000 }]
    rfl

/-! ### Sorting -/

theorem validate_none_sort_mem (req : UserRequirement) (s : String)
    (hv : req.validate = none) (hsb : req.sort_by = some s) (hne : s ≠ "") :
    s ∈ sortKeys := by
  have h := ((oFirst_eq_none _ _).mp hv).2
  have hsk := ((oFirst_eq_none _ _).mp h).2
  rw [hsb] at hsk
  simp only [sortKeyCheck] at hsk
  by_contra hm
  have hc : sortKeys.contains s = false := by
    cases hcc : sortKeys.contains s
    · rfl
    · exact absurd (List.mem_of_elem_eq_true hcc) hm
  rw [if_pos (by rw [hc]; simp [hne])] at hsk
  exact Option.noConfusion hsk

theorem sortByKey_stable_pred {κ : Type} [LinearOrder κ] (kf : ProductRecord → κ)
    (desc : Bool) (p : ProductRecord → Bool)
    (hp : ∀ a b, p a = true → p b = true → kf a = kf b) (l : List ProductRecord) :
    (sortByKey kf desc l).filter p = l.filter p := by
  unfold sortByKey
  split
  · exact filter_insertionSort _ p (fun a b ha hb => le_of_eq (hp b a hb ha)) l
  · exact filter_insertionSort _ p (fun a b ha hb => le_of_eq (hp a b ha hb)) l

/-- The ordering relation promised by the sort key and direction: `product`
compares the lower-cased names. -/
def keyLe (s : String) (desc : Bool) (a b : ProductRecord) : Prop :=
  match s with
  | "inventory" => if desc then b.inventory ≤ a.inventory else a.inventory ≤ b.inventory
  | "units_sold" => if desc then b.units_sold ≤ a.units_sold else a.units_sold ≤ b.units_sold
  | "revenue" => if desc then b.revenue ≤ a.revenue else a.revenue ≤ b.revenue
  | "product" =>
    if desc then pyLower b.product ≤ pyLower a.product
    else pyLower a.product ≤ pyLower b.product
  | _ => True

/-- Equality of sort keys (`product` again on the lower-cased names). -/
def keyEqb (s : String) (a b : ProductRecord) : Bool :=
  match s with
  | "inventory" => a.inventory == b.inventory
  | "units_sold" => a.units_sold == b.units_sold
  | "revenue" => a.revenue == b.revenue
  | "product" => pyLower a.product == pyLower b.product
  | _ => true

/-- C2: with a validated requirement whose `sort_by` is a (non-empty) key,
`apply_query` limit-truncates the stable sort of the filtered records: that
sorted sequence is a permutation of the filtered records, it is ordered by the
chosen field (descending iff `sort_desc`, which defaults to true), and records
with equal sort keys keep their relative order from the input dataset (the
filter of the sorted sequence by any fixed key value equals that of the
filtered input). -/
theorem sort_semantics (ps : List ProductRecord) (req : UserRequirement) (s : String)
    (hv : req.validate = none) (hsb : req.sort_by = some s) (hne : s ≠ "") :
    apply_query ps req =
      .ok (limitStage req (applySortKey s req.sort_desc (filterStage ps req))) ∧
    (applySortKey s req.sort_desc (filterStage ps req)).Perm (filterStage ps req) ∧
    List.Pairwise (keyLe s req.sort_desc)
      (applySortKey s req.sort_desc (filterStage ps req)) ∧
    (∀ a : ProductRecord,
      (applySortKey s req.sort_desc (filterStage ps req)).filter (keyEqb s a) =
        (filterStage ps req).filter (keyEqb s a)) ∧
    ({} : UserRequirement).sort_desc = true := by
  have hmem := validate_none_sort_mem req s hv hsb hne
  have heq : apply_query ps req =
      .ok (limitStage req (applySortKey s req.sort_desc (filterStage ps req))) := by
    rw [apply_query_ok ps req hv]
    simp only [sortStage, hsb]
    rw [if_neg hne]
  simp only [sortKeys, List.mem_cons, List.not_mem_nil, or_false] at hmem
  refine ⟨heq, applySortKey_perm _ _ _, ?_, ?_, rfl⟩
  · rcases hmem with rfl | rfl | rfl | rfl <;> cases hd : req.sort_desc
    · exact (sortByKey_sorted_asc (fun r => r.inventory) _).imp (fun h => h)
    · exact (sortByKey_sorted_desc (fun r => r.inventory) _).imp (fun h => h)
    · exact (sortByKey_sorted_asc (fun r => r.units_sold) _).imp (fun h => h)
    · exact (sortByKey_sorted_desc (fun r => r.units_sold) _).imp (fun h => h)
    · exact (sortByKey_sorted_asc (fun r => r.revenue) _).imp (fun h => h)
    · exact (sortByKey_sorted_desc (fun r => r.revenue) _).imp (fun h => h)
    · exact (sortByKey_sorted_asc (fun r => pyLower r.product) _).imp (fun h => h)
    · exact (sortByKey_sorted_desc (fun r => pyLower r.product) _).imp (fun h => h)
  · intro a
    rcases hmem with rfl | rfl | rfl | rfl
    · exact sortByKey_stable_pred (fun r => r.inventory) req.sort_desc _
        (fun x y hx hy => (eq_of_beq hx).symm.trans (eq_of_beq hy)) _
    · exact sortByKey_stable_pred (fun r => r.units_sold) req.sort_desc _
        (fun x y hx hy => (eq_of_beq hx).symm.trans (eq_of_beq hy)) _
    · exact sortByKey_stable_pred (fun r => r.revenue) req.sort_desc _
        (fun x y hx hy => (eq_of_beq hx).symm.trans (eq_of_beq hy)) _
    · exact sortByKey_stable_pred (fun r => pyLower r.product) req.sort_desc _
        (fun x y hx hy => (eq_of_beq hx).symm.trans (eq_of_beq hy)) _

theorem sort_semantics_witness :
    apply_query PRODUCTS { sort_by := some "inventory", sort_desc := false } =
      .ok (limitStage { sort_by := some "inventory", sort_desc := false }
        (applySortKey "inventory"
          ({ sort_by := some "inventory", sort_desc := false } : UserRequirement).sort_desc
          (filterStage PRODUCTS { sort_by := some "inventory", sort_desc := false }))) :=
  (sort_semantics PRODUCTS { sort_by := some "inventory", sort_desc := false }
    "inventory" rfl rfl (by decide)).1

/-! ### JSON round trip -/

theorem expectChars_append (p rest : List Char) : expectChars p (p ++ rest) = some rest := by
  induction p with
  | nil => rfl
  | cons c cs ih => simp [expectChars, ih]

def headNotDigit (l : List Char) : Bool :=
  match l with
  | [] => true
  | c :: _ => !(isDigitChar c)

theorem parseDigitsAux_stop (acc : Nat) (rest : List Char) (h : headNotDigit rest = true) :
    parseDigitsAux acc rest = (acc, rest) := by
  cases rest with
  | nil => rfl
  | cons c t =>
    simp only [headNotDigit, Bool.not_eq_true'] at h
    simp [parseDigitsAux, h]

theorem char_digit_toNat : ∀ n : Nat, n < 10 → (Char.ofNat (48 + n)).toNat = 48 + n := by
  decide

theorem char_digit_isDigit : ∀ n : Nat, n < 10 → isDigitChar (Char.ofNat (48 + n)) = true := by
  decide

theorem natDigits_head (n : Nat) :
    ∃ c t, natDigits n = c :: t ∧ isDigitChar c = true := by
  induction n using Nat.strong_induction_on with
  | _ n ih =>
    by_cases h : n < 10
    · exact ⟨Char.ofNat (48 + n), [], by rw [natDigits, dif_pos h],
        char_digit_isDigit n h⟩
    · obtain ⟨c, t, heq, hc⟩ := ih (n / 10) (Nat.div_lt_self (by omega) (by omega))
      exact ⟨c, t ++ [Char.ofNat (48 + n % 10)],
        by rw [natDigits, dif_neg h, heq, List.cons_append], hc⟩

theorem parseDigitsAux_natDigits (n : Nat) :
    ∀ (acc : Nat) (rest : List Char),
      parseDigitsAux acc (natDigits n ++ rest) =
        parseDigitsAux (acc * 10 ^ (natDigits n).length + n) rest := by
  induction n using Nat.strong_induction_on with
  | _ n ih =>
    intro acc rest
    by_cases h : n < 10
    · rw [natDigits, dif_pos h]
      simp only [List.cons_append, List.nil_append, List.length_cons, List.length_nil]
      rw [parseDigitsAux]
      rw [if_pos (char_digit_isDigit n h)]
      congr 1
      rw [char_digit_toNat n h]
      omega
    · rw [natDigits, dif_neg h]
      rw [List.append_assoc]
      rw [ih (n / 10) (Nat.div_lt_self (by omega) (by omega)) acc
        ([Char.ofNat (48 + n % 10)] ++ rest)]
      simp only [List.cons_append, List.nil_append, List.length_append, List.length_cons,
        List.length_nil]
      rw [parseDigitsAux]
      rw [if_pos (char_digit_isDigit (n % 10) (by omega))]
      congr 1
      rw [char_digit_toNat (n % 10) (by omega), pow_succ]
      have hn : 10 * (n / 10) + n % 10 = n := by omega
      set L := (natDigits (n / 10)).length
      have hdist : 10 * (acc * 10 ^ L + n / 10) + (48 + n % 10 - 48) =
          acc * 10 ^ L * 10 + (10 * (n / 10) + n % 10) := by
        have : 48 + n % 10 - 48 = n % 10 := by omega
        rw [this]
        ring
      rw [hdist, hn, mul_assoc]

theorem parseDigits_natDigits (n : Nat) (rest : List Char)
    (h : headNotDigit rest = true) :
    parseDigits (natDigits n ++ rest) = some (n, rest) := by
  obtain ⟨c, t, heq, hc⟩ := natDigits_head n
  have h1 := parseDigitsAux_natDigits n 0 rest
  rw [parseDigitsAux_stop _ _ h] at h1
  simp only [Nat.zero_mul, Nat.zero_add] at h1
  rw [heq] at h1 ⊢
  simp only [List.cons_append] at h1
  simp only [List.cons_append, parseDigits, hc, if_true]
  rw [h1]

theorem digit_ne_dash (c : Char) (hc : isDigitChar c = true) : ¬ c = '-' := by
  intro h
  subst h
  exact absurd hc (by decide)

theorem parseIntChars_intChars (i : Int) (rest : List Char)
    (h : headNotDigit rest = true) :
    parseIntChars (intChars i ++ rest) = some (i, rest) := by
  unfold intChars
  by_cases hi : i < 0
  · rw [if_pos hi, List.cons_append]
    simp only [parseIntChars, if_pos rfl]
    rw [parseDigits_natDigits _ _ h]
    simp only [Option.map_some']
    have : ((-i).toNat : Int) = -i := Int.toNat_of_nonneg (by omega)
    rw [this]
    simp
  · rw [if_neg hi]
    obtain ⟨c, t, heq, hc⟩ := natDigits_head i.toNat
    rw [heq, List.cons_append]
    simp only [parseIntChars, if_neg (digit_ne_dash c hc)]
    rw [← List.cons_append, ← heq, parseDigits_natDigits _ _ h]
    simp only [Option.map_some']
    rw [Int.toNat_of_nonneg (by omega : (0 : Int) ≤ i)]

theorem psb_quote (l : List Char) : parseStringBody ('"' :: l) = some ([], l) := by
  rw [parseStringBody.eq_def]
  simp

theorem psb_ord (c : Char) (l : List Char) (h1 : ¬ c = '"') (h2 : ¬ c = '\\') :
    parseStringBody (c :: l) = (parseStringBody l).map (fun pr => (c :: pr.1, pr.2)) := by
  rw [parseStringBody.eq_def]
  simp [h1, h2]

theorem psb_esc (e : Char) (l : List Char) :
    parseStringBody ('\\' :: e :: l) =
      (if e = '"' then (parseStringBody l).map (fun pr => ('"' :: pr.1, pr.2))
       else if e = '\\' then (parseStringBody l).map (fun pr => ('\\' :: pr.1, pr.2))
       else if e = 'n' then (parseStringBody l).map (fun pr => ('\n' :: pr.1, pr.2))
       else if e = 't' then (parseStringBody l).map (fun pr => ('\t' :: pr.1, pr.2))
       else if e = 'r' then (parseStringBody l).map (fun pr => ('\r' :: pr.1, pr.2))
       else if e = 'b' then (parseStringBody l).map (fun pr => (Char.ofNat 8 :: pr.1, pr.2))
       else if e = 'f' then (parseStringBody l).map (fun pr => (Char.ofNat 12 :: pr.1, pr.2))
       else if e = 'u' then
         match l with
         | h1 :: h2 :: h3 :: h4 :: rest3 =>
           match hexVal h1, hexVal h2, hexVal h3, hexVal h4 with
           | some v1, some v2, some v3, some v4 =>
             (parseStringBody rest3).map
               (fun pr => (Char.ofNat (((v1 * 16 + v2) * 16 + v3) * 16 + v4) :: pr.1, pr.2))
           | _, _, _, _ => none
         | _ => none
       else none) := by
  rw [parseStringBody.eq_def]
  simp [show ¬ ('\\' : Char) = '"' from by decide]

theorem hexVal_hexDigitChar : ∀ n : Nat, n < 16 → hexVal (hexDigitChar n) = some n := by
  decide

theorem parseStringBody_escape (cs : List Char) :
    ∀ rest : List Char,
      parseStringBody (escapeChars cs ++ ('"' :: rest)) = some (cs, rest) := by
  induction cs with
  | nil =>
    intro rest
    simp only [escapeChars, List.nil_append]
    exact psb_quote rest
  | cons c cs ih =>
    intro rest
    simp only [escapeChars, List.append_assoc]
    unfold escapeChar
    by_cases h1 : c = '"'
    · subst h1
      rw [if_pos rfl]
      simp only [List.cons_append, List.nil_append]
      rw [psb_esc, if_pos rfl, ih]
      rfl
    · rw [if_neg h1]
      by_cases h2 : c = '\\'
      · subst h2
        rw [if_pos rfl]
        simp only [List.cons_append, List.nil_append]
        rw [psb_esc, if_neg (by decide : ¬ ('\\' : Char) = '"'), if_pos rfl, ih]
        rfl
      · rw [if_neg h2]
        by_cases h3 : c = '\n'
        · subst h3
          rw [if_pos rfl]
          simp only [List.cons_append, List.nil_append]
          rw [psb_esc, if_neg (by decide : ¬ ('n' : Char) = '"'),
            if_neg (by decide : ¬ ('n' : Char) = '\\'), if_pos rfl, ih]
          rfl
        · rw [if_neg h3]
          by_cases h4 : c = '\t'
          · subst h4
            rw [if_pos rfl]
            simp only [List.cons_append, List.nil_append]
            rw [psb_esc, if_neg (by decide : ¬ ('t' : Char) = '"'),
              if_neg (by decide : ¬ ('t' : Char) = '\\'),
              if_neg (by decide : ¬ ('t' : Char) = 'n'), if_pos rfl, ih]
            rfl
          · rw [if_neg h4]
            by_cases h5 : c = '\r'
            · subst h5
              rw [if_pos rfl]
              simp only [List.cons_append, List.nil_append]
              rw [psb_esc, if_neg (by decide : ¬ ('r' : Char) = '"'),
                if_neg (by decide : ¬ ('r' : Char) = '\\'),
                if_neg (by decide : ¬ ('r' : Char) = 'n'),
                if_neg (by decide : ¬ ('r' : Char) = 't'), if_pos rfl, ih]
              rfl
            · rw [if_neg h5]
              by_cases h6 : c.toNat = 8
              · rw [if_pos h6]
                have hc8 : Char.ofNat 8 = c := by rw [← h6, Char.ofNat_toNat]
                simp only [List.cons_append, List.nil_append]
                rw [psb_esc, if_neg (by decide : ¬ ('b' : Char) = '"'),
                  if_neg (by decide : ¬ ('b' : Char) = '\\'),
                  if_neg (by decide : ¬ ('b' : Char) = 'n'),
                  if_neg (by decide : ¬ ('b' : Char) = 't'),
                  if_neg (by decide : ¬ ('b' : Char) = 'r'), if_pos rfl, ih]
                simp only [Option.map_some']
                rw [hc8]
              · rw [if_neg h6]
                by_cases h7 : c.toNat = 12
                · rw [if_pos h7]
                  have hc12 : Char.ofNat 12 = c := by rw [← h7, Char.ofNat_toNat]
                  simp only [List.cons_append, List.nil_append]
                  rw [psb_esc, if_neg (by decide : ¬ ('f' : Char) = '"'),
                    if_neg (by decide : ¬ ('f' : Char) = '\\'),
                    if_neg (by decide : ¬ ('f' : Char) = 'n'),
                    if_neg (by decide : ¬ ('f' : Char) = 't'),
                    if_neg (by decide : ¬ ('f' : Char) = 'r'),
                    if_neg (by decide : ¬ ('f' : Char) = 'b'), if_pos rfl, ih]
                  simp only [Option.map_some']
                  rw [hc12]
                · rw [if_neg h7]
                  by_cases h8 : c.toNat < 32
                  · rw [if_pos h8]
                    simp only [List.cons_append, List.nil_append]
                    rw [psb_esc, if_neg (by decide : ¬ ('u' : Char) = '"'),
                      if_neg (by decide : ¬ ('u' : Char) = '\\'),
                      if_neg (by decide : ¬ ('u' : Char) = 'n'),
                      if_neg (by decide : ¬ ('u' : Char) = 't'),
                      if_neg (by decide : ¬ ('u' : Char) = 'r'),
                      if_neg (by decide : ¬ ('u' : Char) = 'b'),
                      if_neg (by decide : ¬ ('u' : Char) = 'f'), if_pos rfl]
                    have hhex0 : hexVal '0' = some 0 := by decide
                    have hhex1 := hexVal_hexDigitChar (c.toNat / 16) (by omega)
                    have hhex2 := hexVal_hexDigitChar (c.toNat % 16) (by omega)
                    simp only [hhex0, hhex1, hhex2, ih, Option.map_some']
                    have harith : ((0 * 16 + 0) * 16 + c.toNat / 16) * 16 + c.toNat % 16 =
                        c.toNat := by omega
                    rw [harith, Char.ofNat_toNat]
                  · rw [if_neg h8]
                    simp only [List.cons_append, List.nil_append]
                    rw [psb_ord c _ h1 h2, ih]
                    rfl

theorem renderRecordChars_shape (r : ProductRecord) (rest : List Char) :
    renderRecordChars r ++ rest =
      ([lbrace] ++ ("\n    \"product\": \"").data) ++
        (escapeChars r.product.data ++ ('"' ::
          ((",\n    \"inventory\": ").data ++ (intChars r.inventory ++
            ((",\n    \"units_sold\": ").data ++ (intChars r.units_sold ++
              ((",\n    \"revenue\": ").data ++ (intChars r.revenue ++
                ((("\n  ").data ++ [rbrace]) ++ rest))))))))) := by
  have hB : ("\",\n    \"inventory\": ").data = '"' :: (",\n    \"inventory\": ").data := rfl
  simp only [renderRecordChars, hB, List.append_assoc, List.cons_append, List.nil_append]

theorem parseRecord_render (r : ProductRecord) (rest : List Char) :
    parseRecord (renderRecordChars r ++ rest) =
      some ((r.product, r.inventory, r.units_sold, r.revenue), rest) := by
  rw [renderRecordChars_shape]
  unfold parseRecord
  rw [expectChars_append]
  simp only [Option.some_bind]
  rw [parseStringBody_escape]
  simp only [Option.some_bind]
  rw [expectChars_append]
  simp only [Option.some_bind]
  rw [parseIntChars_intChars _ _ (by rfl)]
  simp only [Option.some_bind]
  rw [expectChars_append]
  simp only [Option.some_bind]
  rw [parseIntChars_intChars _ _ (by rfl)]
  simp only [Option.some_bind]
  rw [expectChars_append]
  simp only [Option.some_bind]
  rw [parseIntChars_intChars _ _ (by rfl)]
  simp only [Option.some_bind]
  rw [expectChars_append]
  simp only [Option.map_some']

theorem renderRecordChars_length (r : ProductRecord) :
    1 ≤ (renderRecordChars r).length := by
  simp [renderRecordChars]

theorem renderItems_length (rs : List ProductRecord) :
    rs.length ≤ (renderItems rs).length := by
  induction rs with
  | nil => simp [renderItems]
  | cons r rs ih =>
    cases rs with
    | nil =>
      simpa [renderItems] using renderRecordChars_length r
    | cons r2 rs2 =>
      have h1 := renderRecordChars_length r
      have hlen : (renderItems (r :: r2 :: rs2)).length =
          (renderRecordChars r).length + (4 + (renderItems (r2 :: rs2)).length) := by
        simp [renderItems]
        omega
      rw [hlen]
      simp only [List.length_cons] at ih ⊢
      omega

theorem parseItemsF_render (rs : List ProductRecord) :
    ∀ fuel : Nat, rs ≠ [] → rs.length ≤ fuel →
      parseItemsF fuel (renderItems rs ++ ('\n' :: (']' :: []))) =
        some (rs.map (fun r => (r.product, r.inventory, r.units_sold, r.revenue))) := by
  induction rs with
  | nil =>
    intro fuel h _
    exact absurd rfl h
  | cons r rs ih =>
    intro fuel _ hfuel
    cases fuel with
    | zero => simp at hfuel
    | succ f =>
      cases rs with
      | nil =>
        simp only [renderItems]
        simp only [parseItemsF]
        rw [parseRecord_render r ('\n' :: (']' :: []))]
        simp
      | cons r2 rs2 =>
        simp only [renderItems]
        rw [List.append_assoc, List.append_assoc]
        rw [show ([',', '\n', ' ', ' '] : List Char) ++
            (renderItems (r2 :: rs2) ++ ('\n' :: (']' :: []))) =
            ',' :: (['\n', ' ', ' '] ++ (renderItems (r2 :: rs2) ++ ('\n' :: (']' :: []))))
          from rfl]
        simp only [parseItemsF]
        rw [parseRecord_render]
        simp only [Option.some_bind]
        simp only [if_true]
        rw [expectChars_append (['\n', ' ', ' '])]
        simp only [Option.some_bind]
        rw [ih f (by simp) (by simp only [List.length_cons] at hfuel ⊢; omega)]
        rfl

theorem string_data_mk (l : List Char) : (String.mk l).data = l := rfl

/-- C9: parsing the text produced by `export_to_json` yields exactly the
`(product, inventory, units_sold, revenue)` tuples of the input records, in
order; the parser only accepts objects carrying exactly those four keys in
that order, so success also certifies the key layout. -/
theorem export_to_json_roundtrip (records : List ProductRecord) :
    parseExport (export_to_json records) =
      some (records.map (fun r => (r.product, r.inventory, r.units_sold, r.revenue))) := by
  cases records with
  | nil => rfl
  | cons r rs =>
    simp only [export_to_json, parseExport, string_data_mk]
    rw [if_neg (by
      intro h
      rw [List.append_assoc] at h
      injection h with h1 h2
      injection h2 with h3 h4
      exact absurd h3 (by decide))]
    rw [List.append_assoc, expectChars_append]
    simp only [Option.some_bind]
    rw [parseItemsF_render (r :: rs) _ (by simp) (by
      have hlen := renderItems_length (r :: rs)
      simp only [List.length_append, List.length_cons] at hlen ⊢
      omega)]
